import Mathlib

/-!
Shallow embedding of the value core of `src/value.go` (package lua): the
closed value union, its type tags, the falsiness and truthiness helpers,
the function-assertion and attribute-lookup contract, the numeric
coercion helpers and the formatting dispatch.

Modelling conventions:
  - Go `LNumber` (a float64) is modelled as an exact rational `ℚ`; the
    helpers `isInteger`, `parseNumber` and the float rendering are not
    under `src/` and are modelled from the words of the spec (each such
    definition carries a doc comment starting `Modelled from the spec`).
  - Reference-like kinds (function, userdata, thread, table, channel)
    carry a natural-number identity standing for the Go pointer; their
    out-of-scope payloads (prototypes, call stacks, OS channels) are not
    represented because no claim mentions them.
  - Go `(value, ok)` multiple returns become pairs; Go `nil` pointers
    become `Option`.
-/

/-- Go type `LValueType` (src/value.go lines 9-22): the enumeration of
type tags.  The source declares ten constants, `LTNil` through
`LTChannel` plus a final `LTObject`. -/
inductive LValueType where
  | LTNil
  | LTBool
  | LTNumber
  | LTString
  | LTFunction
  | LTUserData
  | LTThread
  | LTTable
  | LTChannel
  | LTObject
deriving DecidableEq, Repr

/-- Go `lValueNames` (src/value.go line 24): the ten tag names. -/
def lValueNames : List String :=
  ["nil", "boolean", "number", "string", "function", "userdata", "thread",
   "table", "channel", "object"]

/-- Index of a tag inside `lValueNames`, following the iota order. -/
def LValueType.idx : LValueType → ℕ
  | .LTNil => 0
  | .LTBool => 1
  | .LTNumber => 2
  | .LTString => 3
  | .LTFunction => 4
  | .LTUserData => 5
  | .LTThread => 6
  | .LTTable => 7
  | .LTChannel => 8
  | .LTObject => 9

/-- Go `(vt LValueType) String()` (src/value.go lines 26-28). -/
def LValueType.name (vt : LValueType) : String := lValueNames.getD vt.idx ""

/-- The Go number type `LNumber` modelled as an exact rational. -/
abbrev LNumber := ℚ

/-- The Go interface `LValue` with its nine concrete implementations
(src/value.go): `LNilType`, `LBool`, `LNumber`, `LString`, `LFunction`,
`LUserData`, `LState` (thread), `LTable`, `LChannel`.  Tables keep their
`Metatable` field and the string-keyed part `strdict` (the only parts any
claim touches); the remaining table parts and the opaque payloads of
function, userdata, thread and channel are reduced to an identity. -/
inductive LValue where
  | lnil
  | lbool (b : Bool)
  | lnumber (n : LNumber)
  | lstring (s : String)
  | lfunction (fid : ℕ)
  | luserdata (uid : ℕ) (meta : LValue)
  | lthread (tid : ℕ)
  | ltable (meta : LValue) (strdict : List (String × LValue))
  | lchannel (cid : ℕ)

/-- Go `LNil` (src/value.go line 90), the process-wide nil singleton. -/
def LNil : LValue := .lnil

/-- Go `LTrue` (src/value.go line 109). -/
def LTrue : LValue := .lbool true

/-- Go `LFalse` (src/value.go line 110). -/
def LFalse : LValue := .lbool false

/-- The Go interface-equality test `v == LNil`: `LNil` is the unique
nil value, so the test holds exactly on the nil variant. -/
def eqLNil : LValue → Bool
  | .lnil => true
  | _ => false

/-- The Go interface-equality test `v == LFalse`: `LBool` compares by
value, so the test holds exactly on the boolean false. -/
def eqLFalse : LValue → Bool
  | .lbool b => b == false
  | _ => false

/-- Go `LVIsFalse` (src/value.go line 38): `v == LNil || v == LFalse`. -/
def LVIsFalse (v : LValue) : Bool := eqLNil v || eqLFalse v

/-- Go `LVAsBool` (src/value.go line 41): `v != LNil && v != LFalse`. -/
def LVAsBool (v : LValue) : Bool := !eqLNil v && !eqLFalse v

/-- The `Type()` method of each concrete kind (src/value.go): nil maps to
`LTNil`, booleans to `LTBool`, and so on; no kind returns `LTObject`. -/
def LVType : LValue → LValueType
  | .lnil => .LTNil
  | .lbool _ => .LTBool
  | .lnumber _ => .LTNumber
  | .lstring _ => .LTString
  | .lfunction _ => .LTFunction
  | .luserdata _ _ => .LTUserData
  | .lthread _ => .LTThread
  | .ltable _ _ => .LTTable
  | .lchannel _ => .LTChannel

/-- The `AssertFunction()` method of each concrete kind (src/value.go):
the function variant returns `(fn, true)`; every other variant returns
`(nil, false)`. -/
def AssertFunction : LValue → Option ℕ × Bool
  | .lfunction f => (some f, true)
  | .lnil => (none, false)
  | .lbool _ => (none, false)
  | .lnumber _ => (none, false)
  | .lstring _ => (none, false)
  | .luserdata _ _ => (none, false)
  | .lthread _ => (none, false)
  | .ltable _ _ => (none, false)
  | .lchannel _ => (none, false)

/-- The `Index(L *LState, key string)` method of each concrete kind
(src/value.go): every implementation, the table, userdata and thread
ones included, is `switch key { default: return LNil }`, so every kind
returns `LNil` for every key.  The ignored `*LState` context argument is
modelled as `Unit`. -/
def LVIndex : LValue → Unit → String → LValue
  | .lnil, _, _ => .lnil
  | .lbool _, _, _ => .lnil
  | .lnumber _, _, _ => .lnil
  | .lstring _, _, _ => .lnil
  | .lfunction _, _, _ => .lnil
  | .luserdata _ _, _, _ => .lnil
  | .lthread _, _, _ => .lnil
  | .ltable _ _, _, _ => .lnil
  | .lchannel _, _, _ => .lnil

/-- The nine tags of the spec (section 3): Nil, Boolean, Number, String,
Function, Userdata, Thread, Table, Channel. -/
def nineTags : List LValueType :=
  [.LTNil, .LTBool, .LTNumber, .LTString, .LTFunction, .LTUserData,
   .LTThread, .LTTable, .LTChannel]

/-- Modelled from the spec: the raw string-key lookup of the table
storage engine (section 4.2; the engine itself is not under src/).  The
string hash part is an association list; a missing key reads as nil. -/
def lookupStr : List (String × LValue) → String → LValue
  | [], _ => .lnil
  | (k, v) :: rest, key => if k = key then v else lookupStr rest key

/-- Modelled from the spec (section 4.2): the metatable-driven index
fallback the claim says `index` routes through for tables.  A present
raw entry is returned as is; otherwise, when the metatable holds an
index-fallback entry that is itself a table, the lookup recurses into
it; anything else yields nil.  The chain depth is capped by fuel, as the
spec demands a bounded chain; callable fallback entries would invoke the
out-of-scope interpreter and are outside the model. -/
def specIndexLookup : ℕ → LValue → String → LValue
  | 0, _, _ => .lnil
  | fuel + 1, v, key =>
    match v with
    | .ltable meta sd =>
      match lookupStr sd key with
      | .lnil =>
        (match meta with
         | .ltable _ msd =>
            (match lookupStr msd "__index" with
             | .ltable m2 s2 => specIndexLookup fuel (.ltable m2 s2) key
             | _ => .lnil)
         | _ => .lnil)
      | w => w
    | _ => .lnil

/-- Inner table holding the key the fallback should find. -/
def innerTable : LValue := .ltable .lnil [("foo", .lnumber 1)]

/-- Metatable whose index-fallback entry is `innerTable`. -/
def metaTable : LValue := .ltable .lnil [("__index", innerTable)]

/-- A table carrying `metaTable` and holding no raw entry at all. -/
def sampleTable : LValue := .ltable metaTable []

/-! ## Numeric rendering, parsing and the integer predicate -/

/-- Modelled from the spec (section 4.3): the integer predicate of a
Number — `isInteger` is not under src/.  It holds when the value has no
fractional component and lies within the exactly-representable integer
range of a double, that is when the magnitude is at most 2 to the 53. -/
def isInteger (q : LNumber) : Bool :=
  q.den == 1 && decide (q.num.natAbs ≤ 2 ^ 53)

/-- The Go conversion `int64(nm)`: truncation toward zero. -/
def int64of (q : LNumber) : ℤ := q.num.tdiv (q.den : ℤ)

/-- The decimal digit character of `n` (for `n` below ten). -/
def digitChar (n : ℕ) : Char := Char.ofNat (48 + n)

/-- Most-significant-first decimal digits of a natural number, with
explicit fuel so the definition reduces inside the kernel. -/
def natDigitsAux : ℕ → ℕ → List Char
  | 0, _ => []
  | f + 1, n =>
    if n < 10 then [digitChar n]
    else natDigitsAux f (n / 10) ++ [digitChar (n % 10)]

/-- Decimal digit characters of a natural number, no leading zeros. -/
def natDigitChars (n : ℕ) : List Char := natDigitsAux (n + 1) n

/-- Character list of the decimal rendering of an integer as Go
`fmt.Sprint(int64)` prints it: optional minus sign, then the digits. -/
def intChars (i : ℤ) : List Char :=
  if i < 0 then '-' :: natDigitChars i.natAbs else natDigitChars i.natAbs

/-- Decimal rendering of an integer. -/
def intRender (i : ℤ) : String := ⟨intChars i⟩

/-- Modelled from the spec (section 4.3): the float rendering used for a
Number that fails the integer predicate — the Go side calls
`fmt.Sprint(float64)`, which is not under src/.  The spec only requires
a round-trippable float-style rendering that is never integer-style, so
the exact value is rendered in scientific notation: the digits of
`|num| * (10 ^ den / den)` followed by an exponent marker and the
(negated) exponent `den`.  For every denominator dividing a power of
ten (every double does) the rendered value is exact. -/
def floatChars (q : LNumber) : List Char :=
  (if q.num < 0 then ['-'] else []) ++
    natDigitChars (q.num.natAbs * (10 ^ q.den / q.den)) ++
    'e' :: '-' :: natDigitChars q.den

/-- Float-style rendering of a Number. -/
def floatRender (q : LNumber) : String := ⟨floatChars q⟩

/-- Go `(nm LNumber) String()` (src/value.go lines 138-143): integer
rendering of `int64(nm)` when `isInteger(nm)` holds, otherwise the
float rendering. -/
def numberString (q : LNumber) : String :=
  if isInteger q then intRender (int64of q) else floatRender q

/-- A rendering is integer-style when it is an optional minus sign
followed by one or more decimal digits and nothing else. -/
def isDigCh (c : Char) : Bool := 48 ≤ c.toNat && c.toNat ≤ 57

/-- Numeric value of a decimal digit character. -/
def digCharVal (c : Char) : ℕ := c.toNat - 48

/-- Whether a string is integer-style: an optional leading minus sign
followed by decimal digits only, at least one. -/
def isIntegerStyle (s : String) : Bool :=
  match s.data with
  | [] => false
  | c :: ds => if c = '-' then !ds.isEmpty && ds.all isDigCh else (c :: ds).all isDigCh

/-- Value of a most-significant-first decimal digit character list. -/
def digitsVal (ds : List Char) : ℕ :=
  ds.foldl (fun a c => 10 * a + digCharVal c) 0

/-- Hexadecimal digit test. -/
def isHexCh (c : Char) : Bool :=
  (48 ≤ c.toNat && c.toNat ≤ 57) || (97 ≤ c.toNat && c.toNat ≤ 102) ||
    (65 ≤ c.toNat && c.toNat ≤ 70)

/-- Value of a hexadecimal digit character. -/
def hexCharVal (c : Char) : ℕ :=
  if 48 ≤ c.toNat && c.toNat ≤ 57 then c.toNat - 48
  else if 97 ≤ c.toNat && c.toNat ≤ 102 then c.toNat - 87
  else if 65 ≤ c.toNat && c.toNat ≤ 70 then c.toNat - 55
  else 0

/-- Value of a most-significant-first hexadecimal digit list. -/
def hexDigitsVal (ds : List Char) : ℕ :=
  ds.foldl (fun a c => 16 * a + hexCharVal c) 0

/-- Optional leading sign: a minus yields `(true, rest)`, a plus is
consumed without negating, anything else is left in place. -/
def splitSign : List Char → Bool × List Char
  | '-' :: t => (true, t)
  | '+' :: t => (false, t)
  | cs => (false, cs)

/-- Mantissa value: integer digits plus fractional digits scaled down
by ten to the number of fractional digits. -/
def mantVal (ip fp : List Char) : ℚ :=
  (digitsVal ip : ℚ) + (digitsVal fp : ℚ) / 10 ^ fp.length

/-- Exponent clause of a decimal literal: optional sign, then at least
one digit, then the end; scales the mantissa by a power of ten. -/
def parseExp (m : ℚ) (cs : List Char) : Option ℚ :=
  let es := splitSign cs
  let ds := es.2.takeWhile isDigCh
  let r := es.2.dropWhile isDigCh
  if ds = [] then none
  else if r = [] then
    some (if es.1 then m / 10 ^ digitsVal ds else m * 10 ^ digitsVal ds)
  else none

/-- Tail of a decimal literal after the mantissa digits were read:
demands at least one mantissa digit, then either the end or an
exponent clause. -/
def parseDecTail (ip fp rest : List Char) : Option ℚ :=
  if ip = [] ∧ fp = [] then none
  else if rest = [] then some (mantVal ip fp)
  else if rest.head? = some 'e' ∨ rest.head? = some 'E' then
    parseExp (mantVal ip fp) rest.tail
  else none

/-- Decimal literal: integer digits, an optional dot with fractional
digits, an optional exponent clause. -/
def parseDec (cs : List Char) : Option ℚ :=
  let ip := cs.takeWhile isDigCh
  let r1 := cs.dropWhile isDigCh
  if r1.head? = some '.' then
    parseDecTail ip (r1.tail.takeWhile isDigCh) (r1.tail.dropWhile isDigCh)
  else parseDecTail ip [] r1

/-- Hexadecimal literal body after the `0x` marker: at least one hex
digit, then the end. -/
def parseHex (cs : List Char) : Option ℚ :=
  let ds := cs.takeWhile isHexCh
  let r := cs.dropWhile isHexCh
  if ds = [] then none
  else if r = [] then some ((hexDigitsVal ds : ℕ) : ℚ)
  else none

/-- Unsigned literal: a hexadecimal integer when the `0x` or `0X`
marker leads, otherwise a decimal literal. -/
def parseUnsigned : List Char → Option ℚ
  | '0' :: 'x' :: t => parseHex t
  | '0' :: 'X' :: t => parseHex t
  | cs => parseDec cs

/-- Modelled from the spec (section 4.3): `parseNumber` is not under
src/.  The guest numeric literal grammar: an optional sign, then a
decimal or hexadecimal integer or a decimal float with an optional
exponent; any other text fails.  Values are exact rationals (the Go
side rounds to the nearest double); surrounding blanks are not part of
the modelled grammar. -/
def parseNumber (s : String) : Option ℚ :=
  let sn := splitSign s.data
  (parseUnsigned sn.2).map fun q => if sn.1 then -q else q

/-- Go `LVAsNumber` (src/value.go lines 65-76): a number is returned as
is, a string is parsed and its value returned when the parse succeeds,
and every remaining case yields the number 0. -/
def LVAsNumber : LValue → LNumber
  | .lnumber n => n
  | .lstring s =>
    (match parseNumber s with
     | some n => n
     | none => 0)
  | _ => 0

/-- Whether a natural number divides a power of ten, decided by
stripping factors of two and five (fuel keeps the recursion
kernel-reducible). -/
def smooth10Aux : ℕ → ℕ → Bool
  | 0, _ => false
  | f + 1, n =>
    if n = 0 then false
    else if n = 1 then true
    else if 2 ∣ n then smooth10Aux f (n / 2)
    else if 5 ∣ n then smooth10Aux f (n / 5)
    else false

/-- Whether `n` is of the form 2 ^ a * 5 ^ b (so divides a power of
ten); every double denominator is. -/
def smooth10 (n : ℕ) : Bool := smooth10Aux (n + 1) n

/-! ## Formatting dispatch -/

/-- A call to the rendering back end `defaultFormat(arg, f, verb)`
(outside src/), recorded by the form of the argument passed: the
truncated integer `int64(nm)`, the float `float64(nm)`, a plain string,
or an `LNumber` handed over unrendered. -/
inductive FmtArg where
  | ofInt (i : ℤ) (verb : Char)
  | ofFloat (q : ℚ) (verb : Char)
  | ofString (s : String) (verb : Char)
  | ofNumber (q : ℚ) (verb : Char)
deriving DecidableEq

/-- The integer verbs of the Number formatter (src/value.go line 159). -/
def intVerbs : List Char := ['b', 'c', 'd', 'o', 'x', 'X', 'U']

/-- The float verbs of the Number formatter (src/value.go line 161). -/
def floatVerbs : List Char := ['e', 'E', 'f', 'F', 'g', 'G']

/-- Go `(nm LNumber) Format` (src/value.go lines 155-172): `q` and `s`
render the canonical text; the integer verbs render `int64(nm)`; the
float verbs render `float64(nm)`; `i` renders `int64(nm)` under verb
`d`; any other verb renders `int64(nm)` when `isInteger(nm)` holds and
`float64(nm)` otherwise. -/
def LNumberFormat (nm : LNumber) (c : Char) : FmtArg :=
  if c = 'q' ∨ c = 's' then .ofString (numberString nm) c
  else if c ∈ intVerbs then .ofInt (int64of nm) c
  else if c ∈ floatVerbs then .ofFloat nm c
  else if c = 'i' then .ofInt (int64of nm) 'd'
  else if isInteger nm then .ofInt (int64of nm) c
  else .ofFloat nm c

/-- Go `(st LString) Format` (src/value.go lines 125-136): under the
verbs `d` and `i` the string is parsed; when the parse FAILS the
zero-valued number the failed parse returned is rendered under verb
`d`, and when the parse succeeds the original string is rendered as
plain text under verb `s`; every other verb renders the string as
text under that verb.  (The error-case number of the out-of-src
`parseNumber` is its documented zero value.) -/
def LStringFormat (st : String) (c : Char) : FmtArg :=
  if c = 'd' ∨ c = 'i' then
    match parseNumber st with
    | none => .ofNumber 0 'd'
    | some _ => .ofString st 's'
  else .ofString st c

/-! ## Digit and rendering lemmas -/

theorem digitChar_isDig {n : ℕ} (h : n < 10) : isDigCh (digitChar n) = true := by
  interval_cases n <;> decide

theorem digitChar_val {n : ℕ} (h : n < 10) : digCharVal (digitChar n) = n := by
  interval_cases n <;> decide

theorem isDigCh_bounds {c : Char} (h : isDigCh c = true) :
    48 ≤ c.toNat ∧ c.toNat ≤ 57 := by
  simpa [isDigCh, Bool.and_eq_true, decide_eq_true_eq] using h

theorem isDigCh_ne_minus {c : Char} (h : isDigCh c = true) : c ≠ '-' := by
  intro he; subst he; exact absurd (isDigCh_bounds h).1 (by decide)

theorem isDigCh_ne_plus {c : Char} (h : isDigCh c = true) : c ≠ '+' := by
  intro he; subst he; exact absurd (isDigCh_bounds h).1 (by decide)

theorem isDigCh_ne_dot {c : Char} (h : isDigCh c = true) : c ≠ '.' := by
  intro he; subst he; exact absurd (isDigCh_bounds h).1 (by decide)

theorem isDigCh_ne_x {c : Char} (h : isDigCh c = true) : c ≠ 'x' := by
  intro he; subst he; exact absurd (isDigCh_bounds h).2 (by decide)

theorem isDigCh_ne_X {c : Char} (h : isDigCh c = true) : c ≠ 'X' := by
  intro he; subst he; exact absurd (isDigCh_bounds h).2 (by decide)

theorem natDigitsAux_spec :
    ∀ f n, n < f →
      (natDigitsAux f n).all isDigCh = true ∧ natDigitsAux f n ≠ [] := by
  intro f
  induction f with
  | zero => intro n h; omega
  | succ f ih =>
    intro n h
    by_cases h10 : n < 10
    · rw [natDigitsAux, if_pos h10]
      refine ⟨?_, by simp⟩
      simp [digitChar_isDig h10]
    · rw [natDigitsAux, if_neg h10]
      have hdiv : n / 10 < n := Nat.div_lt_self (by omega) (by omega)
      obtain ⟨ha, hne⟩ := ih (n / 10) (by omega)
      refine ⟨?_, ?_⟩
      · have hm : n % 10 < 10 := Nat.mod_lt _ (by omega)
        simp [List.all_append, ha, digitChar_isDig hm]
      · intro hcontra
        exact absurd (List.append_eq_nil.mp hcontra).2 (by simp)

theorem natDigitChars_all (n : ℕ) : (natDigitChars n).all isDigCh = true :=
  (natDigitsAux_spec (n + 1) n (by omega)).1

theorem natDigitChars_ne_nil (n : ℕ) : natDigitChars n ≠ [] :=
  (natDigitsAux_spec (n + 1) n (by omega)).2

theorem natDigitsAux_foldl :
    ∀ f n a, n < f →
      List.foldl (fun x c => 10 * x + digCharVal c) a (natDigitsAux f n) =
        a * 10 ^ (natDigitsAux f n).length + n := by
  intro f
  induction f with
  | zero => intro n a h; omega
  | succ f ih =>
    intro n a h
    by_cases h10 : n < 10
    · rw [natDigitsAux, if_pos h10]
      simp [List.foldl, digitChar_val h10]
      ring
    · rw [natDigitsAux, if_neg h10]
      have hdiv : n / 10 < n := Nat.div_lt_self (by omega) (by omega)
      have hm : n % 10 < 10 := Nat.mod_lt _ (by omega)
      rw [List.foldl_append, ih (n / 10) a (by omega)]
      simp only [List.foldl, digitChar_val hm, List.length_append, List.length_cons,
        List.length_nil, Nat.add_zero, pow_succ, ← mul_assoc]
      have hdm := Nat.div_add_mod n 10
      generalize a * 10 ^ (natDigitsAux f (n / 10)).length = k
      omega

theorem digitsVal_natDigitChars (n : ℕ) : digitsVal (natDigitChars n) = n := by
  have := natDigitsAux_foldl (n + 1) n 0 (by omega)
  simpa [digitsVal, natDigitChars] using this

theorem natDigitChars_cons (n : ℕ) :
    ∃ c t, natDigitChars n = c :: t ∧ isDigCh c = true ∧ t.all isDigCh = true := by
  cases hh : natDigitChars n with
  | nil => exact absurd hh (natDigitChars_ne_nil n)
  | cons c t =>
    have hall := natDigitChars_all n
    rw [hh] at hall
    simp only [List.all_cons, Bool.and_eq_true] at hall
    exact ⟨c, t, rfl, hall.1, hall.2⟩

/-! ## takeWhile, dropWhile and sign lemmas -/

theorem takeWhile_all_append {p : Char → Bool} :
    ∀ l1 l2 : List Char, l1.all p = true →
      (l1 ++ l2).takeWhile p = l1 ++ l2.takeWhile p := by
  intro l1
  induction l1 with
  | nil => intro l2 _; rfl
  | cons c t ih =>
    intro l2 h
    simp only [List.all_cons, Bool.and_eq_true] at h
    simp [List.takeWhile_cons, h.1, ih l2 h.2]

theorem dropWhile_all_append {p : Char → Bool} :
    ∀ l1 l2 : List Char, l1.all p = true →
      (l1 ++ l2).dropWhile p = l2.dropWhile p := by
  intro l1
  induction l1 with
  | nil => intro l2 _; rfl
  | cons c t ih =>
    intro l2 h
    simp only [List.all_cons, Bool.and_eq_true] at h
    simp [List.dropWhile_cons, h.1, ih l2 h.2]

theorem takeWhile_head_false {p : Char → Bool} {c : Char} (t : List Char)
    (h : p c = false) : (c :: t).takeWhile p = [] := by
  simp [List.takeWhile_cons, h]

theorem dropWhile_head_false {p : Char → Bool} {c : Char} (t : List Char)
    (h : p c = false) : (c :: t).dropWhile p = c :: t := by
  simp [List.dropWhile_cons, h]

theorem splitSign_minus (t : List Char) : splitSign ('-' :: t) = (true, t) := rfl

theorem splitSign_other (cs : List Char) (h1 : cs.head? ≠ some '-')
    (h2 : cs.head? ≠ some '+') : splitSign cs = (false, cs) := by
  unfold splitSign
  split
  · simp at h1
  · simp at h2
  · rfl

theorem parseUnsigned_eq_dec (cs : List Char) (hx : cs.tail.head? ≠ some 'x')
    (hX : cs.tail.head? ≠ some 'X') : parseUnsigned cs = parseDec cs := by
  unfold parseUnsigned
  split
  · simp at hx
  · simp at hX
  · rfl

theorem takeWhile_all {p : Char → Bool} (l : List Char) (h : l.all p = true) :
    l.takeWhile p = l := by
  have := takeWhile_all_append l [] h
  simpa using this

theorem dropWhile_all {p : Char → Bool} (l : List Char) (h : l.all p = true) :
    l.dropWhile p = [] := by
  have := dropWhile_all_append l [] h
  simpa using this

/-! ## Parse pipeline on rendered digit strings -/

theorem parseDecTail_end_eq (l : List Char) (hne : l ≠ []) :
    parseDecTail l [] [] = some (mantVal l []) := by
  unfold parseDecTail
  rw [if_neg (by simp [hne]), if_pos rfl]

theorem parseDecTail_exp_eq (l rest : List Char) (hne : l ≠ []) :
    parseDecTail l [] ('e' :: rest) = parseExp (mantVal l []) rest := by
  unfold parseDecTail
  rw [if_neg (by simp [hne]), if_neg (by simp)]
  simp only [List.head?_cons, List.tail_cons]
  simp

theorem parseExp_neg_digits (m : ℚ) (d : ℕ) :
    parseExp m ('-' :: natDigitChars d) = some (m / 10 ^ d) := by
  simp only [parseExp, splitSign_minus]
  rw [takeWhile_all _ (natDigitChars_all d), dropWhile_all _ (natDigitChars_all d)]
  rw [if_neg (natDigitChars_ne_nil d), if_pos rfl]
  simp [digitsVal_natDigitChars]

theorem mantVal_digits (n : ℕ) : mantVal (natDigitChars n) [] = (n : ℚ) := by
  have h0 : digitsVal ([] : List Char) = 0 := rfl
  unfold mantVal
  rw [digitsVal_natDigitChars, h0]
  norm_num

theorem parseDec_digits (l rest : List Char) (hl : l.all isDigCh = true)
    (hrest : rest = [] ∨ ∃ t, rest = 'e' :: t) :
    parseDec (l ++ rest) = parseDecTail l [] rest := by
  have htw : (l ++ rest).takeWhile isDigCh = l := by
    rcases hrest with rfl | ⟨t, rfl⟩
    · rw [takeWhile_all_append l [] hl]; simp
    · rw [takeWhile_all_append l _ hl, takeWhile_head_false _ (by decide)]; simp
  have hdw : (l ++ rest).dropWhile isDigCh = rest := by
    rcases hrest with rfl | ⟨t, rfl⟩
    · rw [dropWhile_all_append l [] hl]; rfl
    · rw [dropWhile_all_append l _ hl, dropWhile_head_false _ (by decide)]
  have hdot : ¬ rest.head? = some '.' := by
    rcases hrest with rfl | ⟨t, rfl⟩ <;> simp
  simp only [parseDec, htw, hdw, if_neg hdot]

theorem digits_tail_not_marker (t0 rest : List Char) (ht0 : t0.all isDigCh = true)
    (hrest : rest = [] ∨ ∃ t, rest = 'e' :: t) :
    (t0 ++ rest).head? ≠ some 'x' ∧ (t0 ++ rest).head? ≠ some 'X' := by
  cases t0 with
  | nil =>
    rcases hrest with rfl | ⟨t, rfl⟩
    · exact ⟨by simp, by simp⟩
    · refine ⟨?_, ?_⟩ <;> simp only [List.nil_append, List.head?_cons] <;> decide
  | cons c2 t2 =>
    simp only [List.all_cons, Bool.and_eq_true] at ht0
    simp only [List.cons_append, List.head?_cons]
    constructor
    · exact fun h => isDigCh_ne_x ht0.1 (Option.some.inj h)
    · exact fun h => isDigCh_ne_X ht0.1 (Option.some.inj h)

theorem digits_cons_shape (l : List Char) (hl : l.all isDigCh = true) (hne : l ≠ []) :
    ∃ c t0, l = c :: t0 ∧ isDigCh c = true ∧ t0.all isDigCh = true := by
  cases l with
  | nil => exact absurd rfl hne
  | cons c t0 =>
    simp only [List.all_cons, Bool.and_eq_true] at hl
    exact ⟨c, t0, rfl, hl.1, hl.2⟩

theorem parseNumber_pos (l rest : List Char) (hl : l.all isDigCh = true)
    (hne : l ≠ []) (hrest : rest = [] ∨ ∃ t, rest = 'e' :: t) :
    parseNumber ⟨l ++ rest⟩ = parseDecTail l [] rest := by
  obtain ⟨c, t0, hct, hc, ht0⟩ := digits_cons_shape l hl hne
  have hhead : (l ++ rest).head? = some c := by rw [hct]; rfl
  have hsgn : splitSign (l ++ rest) = (false, l ++ rest) := by
    refine splitSign_other _ ?_ ?_ <;> rw [hhead] <;> simp
    · exact isDigCh_ne_minus hc
    · exact isDigCh_ne_plus hc
  have hta : (l ++ rest).tail = t0 ++ rest := by rw [hct]; rfl
  obtain ⟨hx, hX⟩ := digits_tail_not_marker t0 rest ht0 hrest
  simp only [parseNumber, hsgn]
  rw [parseUnsigned_eq_dec _ (by rw [hta]; exact hx) (by rw [hta]; exact hX)]
  rw [parseDec_digits l rest hl hrest]
  cases parseDecTail l [] rest <;> simp

theorem parseNumber_neg (l rest : List Char) (hl : l.all isDigCh = true)
    (hne : l ≠ []) (hrest : rest = [] ∨ ∃ t, rest = 'e' :: t) :
    parseNumber ⟨'-' :: (l ++ rest)⟩ =
      (parseDecTail l [] rest).map (fun q => -q) := by
  obtain ⟨c, t0, hct, hc, ht0⟩ := digits_cons_shape l hl hne
  have hta : (l ++ rest).tail = t0 ++ rest := by rw [hct]; rfl
  obtain ⟨hx, hX⟩ := digits_tail_not_marker t0 rest ht0 hrest
  simp only [parseNumber, splitSign_minus]
  rw [parseUnsigned_eq_dec _ (by rw [hta]; exact hx) (by rw [hta]; exact hX)]
  rw [parseDec_digits l rest hl hrest]
  cases parseDecTail l [] rest <;> simp

/-! ## Round trip of the integer rendering -/

theorem natAbs_cast_of_neg {i : ℤ} (hi : i < 0) : ((i.natAbs : ℚ)) = -(i : ℚ) := by
  rw [Int.cast_natAbs, abs_of_neg hi]
  push_cast
  ring

theorem natAbs_cast_of_nonneg {i : ℤ} (hi : 0 ≤ i) : ((i.natAbs : ℚ)) = (i : ℚ) := by
  rw [Int.cast_natAbs, abs_of_nonneg hi]

theorem parseNumber_intRender (i : ℤ) : parseNumber (intRender i) = some ((i : ℚ)) := by
  by_cases hi : i < 0
  · have hform : intRender i = ⟨'-' :: (natDigitChars i.natAbs ++ [])⟩ := by
      unfold intRender intChars
      rw [if_pos hi, List.append_nil]
    rw [hform,
      parseNumber_neg _ _ (natDigitChars_all _) (natDigitChars_ne_nil _) (Or.inl rfl),
      parseDecTail_end_eq _ (natDigitChars_ne_nil _),
      Option.map_some', mantVal_digits, natAbs_cast_of_neg hi, neg_neg]
  · have hform : intRender i = ⟨natDigitChars i.natAbs ++ []⟩ := by
      unfold intRender intChars
      rw [if_neg hi, List.append_nil]
    rw [hform,
      parseNumber_pos _ _ (natDigitChars_all _) (natDigitChars_ne_nil _) (Or.inl rfl),
      parseDecTail_end_eq _ (natDigitChars_ne_nil _),
      mantVal_digits, natAbs_cast_of_nonneg (not_lt.mp hi)]

/-! ## Divisibility facts for denominators of doubles -/

theorem smooth10Aux_dvd : ∀ f n, n < f → smooth10Aux f n = true → n ∣ 10 ^ n := by
  intro f
  induction f with
  | zero => intro n h; omega
  | succ f ih =>
    intro n h hs
    rw [smooth10Aux] at hs
    by_cases h0 : n = 0
    · rw [if_pos h0] at hs; exact absurd hs (by simp)
    rw [if_neg h0] at hs
    by_cases h1 : n = 1
    · subst h1; exact one_dvd _
    rw [if_neg h1] at hs
    by_cases h2 : 2 ∣ n
    · rw [if_pos h2] at hs
      have hlt : n / 2 < n := Nat.div_lt_self (by omega) (by omega)
      obtain ⟨t, htt⟩ := ih (n / 2) (by omega) hs
      have hm : n / 2 * 2 = n := Nat.div_mul_cancel h2
      have key : n ∣ 10 ^ (n / 2 + 1) := by
        refine ⟨5 * t, ?_⟩
        rw [pow_succ, htt]
        conv_rhs => rw [← hm]
        ring
      exact key.trans (pow_dvd_pow 10 (by omega))
    · rw [if_neg h2] at hs
      by_cases h5 : 5 ∣ n
      · rw [if_pos h5] at hs
        have hlt : n / 5 < n := Nat.div_lt_self (by omega) (by omega)
        obtain ⟨t, htt⟩ := ih (n / 5) (by omega) hs
        have hm : n / 5 * 5 = n := Nat.div_mul_cancel h5
        have h5le : 5 ≤ n := Nat.le_of_dvd (by omega) h5
        have key : n ∣ 10 ^ (n / 5 + 1) := by
          refine ⟨2 * t, ?_⟩
          rw [pow_succ, htt]
          conv_rhs => rw [← hm]
          ring
        exact key.trans (pow_dvd_pow 10 (by omega))
      · rw [if_neg h5] at hs
        exact absurd hs (by simp)

theorem smooth10_dvd {n : ℕ} (h : smooth10 n = true) : n ∣ 10 ^ n :=
  smooth10Aux_dvd (n + 1) n (by omega) h

/-! ## Round trip of the float rendering -/

theorem floatVal_cast (q : ℚ) (hd : q.den ∣ 10 ^ q.den) :
    ((q.num.natAbs * (10 ^ q.den / q.den) : ℕ) : ℚ) / 10 ^ q.den =
      (q.num.natAbs : ℚ) / (q.den : ℚ) := by
  have ht : (10 ^ q.den / q.den) * q.den = 10 ^ q.den := Nat.div_mul_cancel hd
  have ht0 : ((10 ^ q.den / q.den : ℕ) : ℚ) ≠ 0 := by
    intro hc
    have : (10 ^ q.den / q.den : ℕ) = 0 := by exact_mod_cast hc
    rw [this, zero_mul] at ht
    exact absurd ht.symm (pow_ne_zero _ (by omega))
  have hq10 : ((10 ^ q.den / q.den : ℕ) : ℚ) * (q.den : ℚ) = (10 : ℚ) ^ q.den := by
    exact_mod_cast congrArg (fun x : ℕ => (x : ℚ)) ht
  push_cast
  rw [← hq10, mul_comm ((q.num.natAbs : ℚ)) _, mul_div_mul_left _ _ ht0]

theorem parseNumber_floatRender (q : ℚ) (hd : q.den ∣ 10 ^ q.den) :
    parseNumber (floatRender q) = some q := by
  by_cases hq : q.num < 0
  · have hform : floatRender q =
        ⟨'-' :: (natDigitChars (q.num.natAbs * (10 ^ q.den / q.den)) ++
          ('e' :: '-' :: natDigitChars q.den))⟩ := by
      unfold floatRender floatChars
      rw [if_pos hq]
      rfl
    rw [hform,
      parseNumber_neg _ _ (natDigitChars_all _) (natDigitChars_ne_nil _)
        (Or.inr ⟨_, rfl⟩),
      parseDecTail_exp_eq _ _ (natDigitChars_ne_nil _),
      parseExp_neg_digits, mantVal_digits, Option.map_some',
      floatVal_cast q hd, natAbs_cast_of_neg hq,
      neg_div, neg_neg, Rat.num_div_den]
  · have hform : floatRender q =
        ⟨natDigitChars (q.num.natAbs * (10 ^ q.den / q.den)) ++
          ('e' :: '-' :: natDigitChars q.den)⟩ := by
      unfold floatRender floatChars
      rw [if_neg hq]
      rfl
    rw [hform,
      parseNumber_pos _ _ (natDigitChars_all _) (natDigitChars_ne_nil _)
        (Or.inr ⟨_, rfl⟩),
      parseDecTail_exp_eq _ _ (natDigitChars_ne_nil _),
      parseExp_neg_digits, mantVal_digits,
      floatVal_cast q hd, natAbs_cast_of_nonneg (not_lt.mp hq),
      Rat.num_div_den]

/-! ## The integer predicate, unfolded -/

theorem isInteger_iff {q : ℚ} :
    isInteger q = true ↔ q.den = 1 ∧ q.num.natAbs ≤ 2 ^ 53 := by
  simp [isInteger, Bool.and_eq_true, decide_eq_true_eq, beq_iff_eq]

theorem int64of_int {q : ℚ} (h : q.den = 1) : int64of q = q.num := by
  unfold int64of
  rw [h]
  simp [Int.tdiv_one]

theorem rat_eq_num {q : ℚ} (h : q.den = 1) : ((q.num : ℚ)) = q := by
  conv_rhs => rw [← Rat.num_div_den q]
  rw [h]
  simp

/-! ## Integer-style facts about the two renderings -/

theorem isIntegerStyle_intRender (i : ℤ) : isIntegerStyle (intRender i) = true := by
  obtain ⟨c, t, hct, hc, ht⟩ := natDigitChars_cons i.natAbs
  unfold intRender intChars
  by_cases hi : i < 0
  · rw [if_pos hi, hct]
    simp [isIntegerStyle, List.all_cons, hc, ht]
  · rw [if_neg hi, hct]
    simp [isIntegerStyle, isDigCh_ne_minus hc, List.all_cons, hc, ht]

theorem floatTail_not_all_digits (n : ℕ) (l2 : List Char) :
    (natDigitChars n ++ 'e' :: l2).all isDigCh = false := by
  rw [List.all_append]
  simp [List.all_cons, (by decide : isDigCh 'e' = false)]

theorem isIntegerStyle_floatRender (q : ℚ) : isIntegerStyle (floatRender q) = false := by
  obtain ⟨c, t, hct, hc, ht⟩ :=
    natDigitChars_cons (q.num.natAbs * (10 ^ q.den / q.den))
  unfold floatRender floatChars
  by_cases hq : q.num < 0
  · rw [if_pos hq]
    simp [isIntegerStyle, List.all_cons, List.all_append,
      (by decide : isDigCh 'e' = false)]
  · rw [if_neg hq, List.nil_append, hct]
    simp [isIntegerStyle, List.cons_append, isDigCh_ne_minus hc, List.all_cons,
      List.all_append, (by decide : isDigCh 'e' = false)]

/-! ## The claims -/

/-- Claim C1: for every value `v`, the falsiness predicate `LVIsFalse`
holds iff `v` is nil or the boolean false; every other value is truthy,
the number 0 and the empty string included. -/
theorem claim_isfalse_iff_nil_or_false :
    (∀ v : LValue, LVIsFalse v = true ↔ (v = .lnil ∨ v = .lbool false)) ∧
    LVIsFalse (.lnumber 0) = false ∧ LVIsFalse (.lstring "") = false := by
  refine ⟨?_, rfl, rfl⟩
  intro v
  cases v <;> simp [LVIsFalse, eqLNil, eqLFalse]

/-- Claim C10: the truthiness coercion `LVAsBool` is the exact pointwise
negation of the falsiness predicate `LVIsFalse`; on no value do the two
helpers agree. -/
theorem claim_asbool_negates_isfalse : ∀ v : LValue, LVAsBool v = !LVIsFalse v := by
  intro v
  cases v <;> simp [LVAsBool, LVIsFalse, eqLNil, eqLFalse]

/-- Claim C3: `AssertFunction` returns the function with the success
flag exactly on the Function variant and returns the not-found flag on
each of the other eight variants. -/
theorem claim_assert_function_dispatch :
    (∀ f, AssertFunction (.lfunction f) = (some f, true)) ∧
    AssertFunction .lnil = (none, false) ∧
    (∀ b, AssertFunction (.lbool b) = (none, false)) ∧
    (∀ n, AssertFunction (.lnumber n) = (none, false)) ∧
    (∀ s, AssertFunction (.lstring s) = (none, false)) ∧
    (∀ u m, AssertFunction (.luserdata u m) = (none, false)) ∧
    (∀ t, AssertFunction (.lthread t) = (none, false)) ∧
    (∀ m d, AssertFunction (.ltable m d) = (none, false)) ∧
    (∀ c, AssertFunction (.lchannel c) = (none, false)) :=
  ⟨fun _ => rfl, rfl, fun _ => rfl, fun _ => rfl, fun _ => rfl, fun _ _ => rfl,
   fun _ => rfl, fun _ _ => rfl, fun _ => rfl⟩

/-- Claim C2 counterexample: under the metatable-driven lookup of spec
section 4.2 the table `sampleTable` resolves the key "foo" to the
number 1 through its metatable, yet the `Index` method of the code
returns nil on it — so `index` on a table with a metatable does not
route through the metatable-driven fallback. -/
theorem claim_index_counterexample :
    LVIndex sampleTable () "foo" = LValue.lnil ∧
    specIndexLookup 8 sampleTable "foo" = LValue.lnumber 1 ∧
    LValue.lnil ≠ LValue.lnumber 1 :=
  ⟨rfl, rfl, by intro h; exact LValue.noConfusion h⟩

/-- Claim C2 amended: for every value kind — Table, Userdata and Thread
included, with or without a metatable — `Index` unconditionally returns
nil for every string key. -/
theorem claim_index_always_nil :
    ∀ (v : LValue) (L : Unit) (key : String), LVIndex v L key = LValue.lnil := by
  intro v L key
  cases v <;> rfl

/-- Claim C7 counterexample: the tag enumeration of the code holds a
tenth tag, `LTObject` (named "object" in the ten-entry name table),
that is none of the nine tags — the claim that there is no tenth tag in
the tag set fails. -/
theorem claim_tag_counterexample :
    LValueType.LTObject ∉ nineTags ∧ lValueNames.length = 10 := by
  exact ⟨by decide, rfl⟩

/-- Claim C7 amended: the value union has exactly nine variants and
`Type()` maps every value to one of the nine distinct tags, never to
the extra tenth tag `LTObject` that the tag enumeration also contains. -/
theorem claim_kind_nine_tags :
    (∀ v : LValue, LVType v ∈ nineTags ∧ LVType v ≠ .LTObject) ∧
    nineTags.Nodup ∧ nineTags.length = 9 := by
  refine ⟨?_, by decide, rfl⟩
  intro v
  cases v <;> exact ⟨by simp [LVType, nineTags], by simp [LVType]⟩

/-- Claim C4: the non-failing coercion `LVAsNumber` returns a Number
itself, returns the parsed value of a String the numeric grammar
accepts, and returns the exact number 0 in every other case — a String
whose parse fails and each non-Number non-String kind. -/
theorem claim_asnumber_coercion :
    (∀ n, LVAsNumber (.lnumber n) = n) ∧
    (∀ s n, parseNumber s = some n → LVAsNumber (.lstring s) = n) ∧
    (∀ s, parseNumber s = none → LVAsNumber (.lstring s) = 0) ∧
    LVAsNumber .lnil = 0 ∧
    (∀ b, LVAsNumber (.lbool b) = 0) ∧
    (∀ f, LVAsNumber (.lfunction f) = 0) ∧
    (∀ u m, LVAsNumber (.luserdata u m) = 0) ∧
    (∀ t, LVAsNumber (.lthread t) = 0) ∧
    (∀ m d, LVAsNumber (.ltable m d) = 0) ∧
    (∀ c, LVAsNumber (.lchannel c) = 0) := by
  refine ⟨fun _ => rfl, ?_, ?_, rfl, fun _ => rfl, fun _ => rfl, fun _ _ => rfl,
    fun _ => rfl, fun _ _ => rfl, fun _ => rfl⟩
  · intro s n h
    simp [LVAsNumber, h]
  · intro s h
    simp [LVAsNumber, h]

/-- Claim C5: the canonical rendering of a Number is integer-style
exactly when the integer predicate holds, and in that case it is the
decimal rendering of the integral form. -/
theorem claim_number_string_style : ∀ q : LNumber,
    isIntegerStyle (numberString q) = isInteger q ∧
    (isInteger q = true → numberString q = intRender q.num) := by
  intro q
  constructor
  · by_cases h : isInteger q = true
    · rw [numberString, if_pos h, h]
      exact isIntegerStyle_intRender (int64of q)
    · simp only [Bool.not_eq_true] at h
      rw [numberString, h, if_neg (by simp)]
      exact isIntegerStyle_floatRender q
  · intro h
    rw [numberString, if_pos h, int64of_int (isInteger_iff.mp h).1]

/-- Claim C9: parsing the canonical rendering of a Number yields an
equal Number, and for a Number satisfying the integer predicate the
reparsed value satisfies it as well.  The hypothesis restricts the
denominator to one dividing a power of ten, which holds of every
double-precision value. -/
theorem claim_number_round_trip (q : LNumber) (h : smooth10 q.den = true) :
    parseNumber (numberString q) = some q ∧
    (isInteger q = true →
      ∃ r, parseNumber (numberString q) = some r ∧ isInteger r = true) := by
  have hmain : parseNumber (numberString q) = some q := by
    by_cases hi : isInteger q = true
    · rw [numberString, if_pos hi]
      obtain ⟨hden, _⟩ := isInteger_iff.mp hi
      rw [int64of_int hden, parseNumber_intRender, rat_eq_num hden]
    · simp only [Bool.not_eq_true] at hi
      rw [numberString, hi, if_neg (by simp)]
      exact parseNumber_floatRender q (smooth10_dvd h)
  exact ⟨hmain, fun hi => ⟨q, hmain, hi⟩⟩

/-- Claim C9 witness: the round trip evaluated at the Number 7, whose
denominator 1 divides a power of ten. -/
theorem claim_number_round_trip_witness :
    parseNumber (numberString 7) = some 7 ∧
    (isInteger (7 : LNumber) = true →
      ∃ r, parseNumber (numberString 7) = some r ∧ isInteger r = true) :=
  claim_number_round_trip 7 (by decide)

/-- Claim C8: the Number formatter dispatches by verb — d and i render
the truncated integer in decimal, b, c, o, x, X and U render it under
that verb, the float verbs e, E, f, F, g, G render the floating form,
q and s render the canonical text, and any remaining verb renders the
integral form exactly when the integer predicate holds and the floating
form otherwise. -/
theorem claim_number_format_dispatch (nm : LNumber) (c : Char) :
    LNumberFormat nm 'd' = .ofInt (int64of nm) 'd' ∧
    LNumberFormat nm 'i' = .ofInt (int64of nm) 'd' ∧
    LNumberFormat nm 'b' = .ofInt (int64of nm) 'b' ∧
    LNumberFormat nm 'c' = .ofInt (int64of nm) 'c' ∧
    LNumberFormat nm 'o' = .ofInt (int64of nm) 'o' ∧
    LNumberFormat nm 'x' = .ofInt (int64of nm) 'x' ∧
    LNumberFormat nm 'X' = .ofInt (int64of nm) 'X' ∧
    LNumberFormat nm 'U' = .ofInt (int64of nm) 'U' ∧
    LNumberFormat nm 'e' = .ofFloat nm 'e' ∧
    LNumberFormat nm 'E' = .ofFloat nm 'E' ∧
    LNumberFormat nm 'f' = .ofFloat nm 'f' ∧
    LNumberFormat nm 'F' = .ofFloat nm 'F' ∧
    LNumberFormat nm 'g' = .ofFloat nm 'g' ∧
    LNumberFormat nm 'G' = .ofFloat nm 'G' ∧
    LNumberFormat nm 'q' = .ofString (numberString nm) 'q' ∧
    LNumberFormat nm 's' = .ofString (numberString nm) 's' ∧
    (c ∉ (['q', 's', 'i'] ++ intVerbs ++ floatVerbs) →
      LNumberFormat nm c =
        if isInteger nm then .ofInt (int64of nm) c else .ofFloat nm c) := by
  refine ⟨rfl, rfl, rfl, rfl, rfl, rfl, rfl, rfl, rfl, rfl, rfl, rfl, rfl, rfl,
    rfl, rfl, ?_⟩
  intro h
  have h1 : ¬(c = 'q' ∨ c = 's') := by
    intro hc
    rcases hc with rfl | rfl <;> exact h (by simp)
  have h2 : c ∉ intVerbs := fun hc => h (by simp [hc])
  have h3 : c ∉ floatVerbs := fun hc => h (by simp [hc])
  have h4 : ¬ c = 'i' := fun hc => h (by simp [hc])
  unfold LNumberFormat
  rw [if_neg h1, if_neg h2, if_neg h3, if_neg h4]

/-- Claim C6 (evaluation of the code at the failing input): on the
string "abc", whose numeric parse fails, the string formatter under the
numeric verb d renders the error-case number 0 numerically instead of
falling back to the plain text; on the string "10", whose parse
succeeds, it renders the plain text instead of the parsed number. -/
theorem claim_string_format_swapped :
    parseNumber "abc" = none ∧
    LStringFormat "abc" 'd' = FmtArg.ofNumber 0 'd' ∧
    parseNumber "10" = some 10 ∧
    LStringFormat "10" 'd' = FmtArg.ofString "10" 's' := by
  refine ⟨rfl, rfl, ?_, rfl⟩
  have h : parseNumber "10" = some (mantVal ['1', '0'] []) := rfl
  have h2 : digitsVal ['1', '0'] = 10 := rfl
  have h3 : digitsVal ([] : List Char) = 0 := rfl
  rw [h]
  unfold mantVal
  rw [h2, h3]
  norm_num
